import Mathlib

/-!
Shallow embedding of the `rolling-time` repository (a node.js rolling time
window over timestamped cost observations) and proofs about it.

Numbers (JS doubles) are modelled as rationals, so arithmetic is exact.
JS strings are modelled as lists of characters.
-/

/-- The JS constant `Number.MAX_VALUE`, `(2^53 - 1) * 2^971`, used by the
constructor and by the eviction path of `put` as the initial value of `min`. -/
def MAXV : ℚ := (2 ^ 53 - 1) * 2 ^ 971

/-- An observation: a pair of a `timestamp` and a `cost` value
(the object pushed in `src/rollingtime.js`, lines 54-57). -/
structure Obs where
  timestamp : ℚ
  cost : ℚ
deriving DecidableEq

instance : Inhabited Obs := ⟨⟨0, 0⟩⟩

/-- The state of the `RollingTime` class of `src/rollingtime.js`:
the window size `TAU`, the buffered `observations`, and the running
aggregates `sum`, `min`, `max`. -/
structure RollingTime where
  TAU : ℚ
  observations : List Obs
  sum : ℚ
  min : ℚ
  max : ℚ
deriving DecidableEq

/-- The `RollingTime` constructor (`src/rollingtime.js`, lines 32-38):
it stores `TAU` unchanged and initialises the empty buffer with
`sum = 0`, `min = Number.MAX_VALUE`, `max = 0`.  It performs no
validation of `TAU`. -/
def RollingTime.new (TAU : ℚ) : RollingTime :=
  { TAU := TAU, observations := [], sum := 0, min := MAXV, max := 0 }

/-- Accumulator of the `forEach` re-aggregation loop inside `put`
(`src/rollingtime.js`, lines 67-84): the running `sum`, `min`, `max`
being rebuilt, and `newStartIndex`, the number of expired observations. -/
structure ScanAcc where
  sum : ℚ
  min : ℚ
  max : ℚ
  newStartIndex : Nat
deriving DecidableEq

/-- One iteration of the `forEach` loop of `put`
(`src/rollingtime.js`, lines 75-84): an observation with
`timestamp - TAU >= obs.timestamp` (here `obs.timestamp ≤ cutoff` with
`cutoff = timestamp - TAU`) only bumps `newStartIndex`; any other
observation is folded into the aggregates. -/
def scanStep (cutoff : ℚ) (acc : ScanAcc) (o : Obs) : ScanAcc :=
  if o.timestamp ≤ cutoff then
    { acc with newStartIndex := acc.newStartIndex + 1 }
  else
    { acc with
        sum := acc.sum + o.cost
        min := Min.min acc.min o.cost
        max := Max.max acc.max o.cost }

/-- `RollingTime.put` (`src/rollingtime.js`, lines 53-89).  The new
observation is pushed; then, if `timestamp - TAU < observations[0].timestamp`
(where `observations[0]` is read after the push), the aggregates are updated
in place; otherwise `sum`, `min`, `max` are reset to `0`, `Number.MAX_VALUE`,
`0`, the whole buffer is rescanned by the `forEach` loop (`scanStep`), and
the first `newStartIndex` observations are sliced away. -/
def RollingTime.put (w : RollingTime) (timestamp cost : ℚ) : RollingTime :=
  if timestamp - w.TAU < ((w.observations ++ [Obs.mk timestamp cost]).headI).timestamp then
    { w with
        observations := w.observations ++ [Obs.mk timestamp cost]
        sum := w.sum + cost
        min := Min.min w.min cost
        max := Max.max w.max cost }
  else
    { w with
        observations := (w.observations ++ [Obs.mk timestamp cost]).drop
          (((w.observations ++ [Obs.mk timestamp cost]).foldl
            (scanStep (timestamp - w.TAU)) (ScanAcc.mk 0 MAXV 0 0)).newStartIndex)
        sum := ((w.observations ++ [Obs.mk timestamp cost]).foldl
          (scanStep (timestamp - w.TAU)) (ScanAcc.mk 0 MAXV 0 0)).sum
        min := ((w.observations ++ [Obs.mk timestamp cost]).foldl
          (scanStep (timestamp - w.TAU)) (ScanAcc.mk 0 MAXV 0 0)).min
        max := ((w.observations ++ [Obs.mk timestamp cost]).foldl
          (scanStep (timestamp - w.TAU)) (ScanAcc.mk 0 MAXV 0 0)).max }

/-- Run a sequence of `put` calls (each pair is `(timestamp, cost)`)
against a window state, in order. -/
def applyPuts (w : RollingTime) (ps : List (ℚ × ℚ)) : RollingTime :=
  ps.foldl (fun w p => w.put p.1 p.2) w

/-- A sequence of `(timestamp, cost)` inputs has non-decreasing timestamps:
each timestamp is `≥` the previous one. -/
def nonDecreasing (ps : List (ℚ × ℚ)) : Prop :=
  ps.Chain' fun a b => a.1 ≤ b.1

/-!
Model of the batch collaborator (`src/main.js`): lines are lists of
characters; `line.split('\t')`, the `Number(...)` conversion (on the
decimal fragment of its grammar), `parseObservation`, and the per-line
loop of `main` are embedded below.
-/

/-- Helper for `splitTab`: split the remaining characters on `'\t'`,
`acc` being the (reversed) current field. -/
def splitTabAux : List Char → List Char → List (List Char)
  | [], acc => [acc.reverse]
  | c :: cs, acc =>
      if c = '\t' then acc.reverse :: splitTabAux cs [] else splitTabAux cs (c :: acc)

/-- The JS `line.split('\t')` used by `parseObservation`
(`src/main.js`, line 97): split a string into its tab-separated fields. -/
def splitTab (s : List Char) : List (List Char) := splitTabAux s []

/-- The characters the JS `Number(string)` conversion strips as whitespace
(the common ones: space, tab, line feed, carriage return, vertical tab,
form feed, no-break space, BOM). -/
def isJsWhitespace (c : Char) : Bool :=
  c = ' ' || c = '\t' || c = '\n' || c = '\r' || c = '\x0b' ||
  c = '\x0c' || c = '\u00A0' || c = '\uFEFF'

/-- Numeric value of a list of decimal digit characters, most significant
first (as accumulated by a left-to-right scan). -/
def digitsToNat (ds : List Char) : ℕ :=
  ds.foldl (fun n c => 10 * n + (c.toNat - 48)) 0

/-- Parse the optional exponent part of a JS decimal literal; the whole
rest of the input must be consumed, otherwise the conversion yields NaN
(`none`). `some e` is the decimal exponent. -/
def parseExponent : List Char → Option ℤ
  | [] => some 0
  | c :: rest =>
      if c = 'e' ∨ c = 'E' then
        match rest with
        | '+' :: ds =>
            if ds ≠ [] ∧ ds.all Char.isDigit then some (digitsToNat ds) else none
        | '-' :: ds =>
            if ds ≠ [] ∧ ds.all Char.isDigit then some (-(digitsToNat ds : ℤ)) else none
        | ds =>
            if ds ≠ [] ∧ ds.all Char.isDigit then some (digitsToNat ds) else none
      else none

/-- Parse an unsigned JS decimal literal `digits [. digits] [exponent]`
or `. digits [exponent]`; `none` models NaN. -/
def parseUnsigned (cs : List Char) : Option ℚ :=
  match cs.dropWhile Char.isDigit with
  | '.' :: rest2 =>
      if cs.takeWhile Char.isDigit = [] ∧ rest2.takeWhile Char.isDigit = [] then none
      else
        match parseExponent (rest2.dropWhile Char.isDigit) with
        | some e =>
            some ((digitsToNat (cs.takeWhile Char.isDigit) +
              digitsToNat (rest2.takeWhile Char.isDigit) /
                10 ^ (rest2.takeWhile Char.isDigit).length) * 10 ^ e)
        | none => none
  | rest1 =>
      if cs.takeWhile Char.isDigit = [] then none
      else
        match parseExponent rest1 with
        | some e => some (digitsToNat (cs.takeWhile Char.isDigit) * (10 : ℚ) ^ e)
        | none => none

/-- Model of the JS `Number(string)` conversion used by `parseObservation`
(`src/main.js`, lines 102 and 107), on the decimal fragment of its grammar:
surrounding whitespace is stripped, the empty (or whitespace-only) string
converts to `0`, otherwise an optionally signed decimal literal is parsed.
`none` models NaN.  The `Infinity` literal and the non-decimal radix
prefixes, which do not occur in this development's inputs, are out of the
model's scope (they are mapped to NaN). -/
def jsNumber (s : List Char) : Option ℚ :=
  match ((s.dropWhile isJsWhitespace).reverse.dropWhile isJsWhitespace).reverse with
  | [] => some 0
  | '+' :: rest => if rest = [] then none else parseUnsigned rest
  | '-' :: rest => if rest = [] then none else (parseUnsigned rest).map Neg.neg
  | t => parseUnsigned t

/-- `parseObservation` (`src/main.js`, lines 96-114): split the line on
tabs; unless there are exactly two fields and both convert to numbers,
report an error string and leave the window untouched; otherwise `put`
the two numbers into the window. -/
def parseObservation (line : List Char) (rtw : RollingTime) : Except String RollingTime :=
  if (splitTab line).length ≠ 2 then
    Except.error ("Expected format: $\x7bTIMESTAMP\x7d\t$\x7bCOST\x7d, got: " ++ String.mk line)
  else
    match jsNumber ((splitTab line).getD 0 []) with
    | none => Except.error "Timestamp expected to be a number"
    | some timestamp =>
        match jsNumber ((splitTab line).getD 1 []) with
        | none => Except.error "Cost expected to be a number"
        | some cost => Except.ok (rtw.put timestamp cost)

/-- State of the line loop of `main` (`src/main.js`, lines 66-80):
the 1-based counter `curLine`, the window, and the errors reported so far
(line number and message). -/
structure BatchState where
  curLine : ℕ
  rtw : RollingTime
  errors : List (ℕ × String)
deriving DecidableEq

/-- One firing of the `rl.on('line', ...)` handler of `main`
(`src/main.js`, lines 70-80): bump `curLine`, try `parseObservation`;
on error, record it with the current line number and leave the window as
it was. -/
def processLine (st : BatchState) (line : List Char) : BatchState :=
  match parseObservation line st.rtw with
  | Except.ok rtw2 => { curLine := st.curLine + 1, rtw := rtw2, errors := st.errors }
  | Except.error e =>
      { curLine := st.curLine + 1, rtw := st.rtw,
        errors := st.errors ++ [(st.curLine + 1, e)] }

/-- The line loop of `main` (`src/main.js`, lines 57-80): starting from a
fresh window of size `tau`, process the input lines in order. -/
def runBatch (tau : ℚ) (lines : List (List Char)) : BatchState :=
  lines.foldl processLine { curLine := 0, rtw := RollingTime.new tau, errors := [] }

/-- A malformed input line, as rejected by `parseObservation`: it does not
split on tab into exactly two fields, or a field does not convert to a
number. -/
def badLine (line : List Char) : Prop :=
  (splitTab line).length ≠ 2 ∨
  jsNumber ((splitTab line).getD 0 []) = none ∨
  jsNumber ((splitTab line).getD 1 []) = none

/-- A character list that is empty or consists only of JS whitespace. -/
def wsOnly (cs : List Char) : Prop := ∀ c ∈ cs, isJsWhitespace c = true

/-!  Helper lemmas about `put` and the `forEach` scan.  -/

/-- The aggregate-consistency invariant maintained by `put`: the buffer is
sorted by timestamp, `sum` is the sum of the buffered costs, and `min` /
`max` are folds of `Min.min` / `Max.max` over the buffered costs seeded
with the constructor sentinels `Number.MAX_VALUE` and `0`. -/
def AggInv (w : RollingTime) : Prop :=
  w.observations.Pairwise (fun a b => a.timestamp ≤ b.timestamp) ∧
  w.sum = (w.observations.map Obs.cost).sum ∧
  w.min = (w.observations.map Obs.cost).foldl Min.min MAXV ∧
  w.max = (w.observations.map Obs.cost).foldl Max.max 0

/-- All buffered timestamps are at most `T`. -/
def TimeBound (w : RollingTime) (T : ℚ) : Prop :=
  ∀ o ∈ w.observations, o.timestamp ≤ T

theorem put_fast (w : RollingTime) (t c : ℚ)
    (h : t - w.TAU < ((w.observations ++ [Obs.mk t c]).headI).timestamp) :
    w.put t c =
      { w with
          observations := w.observations ++ [Obs.mk t c]
          sum := w.sum + c
          min := Min.min w.min c
          max := Max.max w.max c } := by
  unfold RollingTime.put
  rw [if_pos h]

theorem put_slow (w : RollingTime) (t c : ℚ)
    (h : ¬ t - w.TAU < ((w.observations ++ [Obs.mk t c]).headI).timestamp) :
    w.put t c =
      { w with
          observations := (w.observations ++ [Obs.mk t c]).drop
            (((w.observations ++ [Obs.mk t c]).foldl
              (scanStep (t - w.TAU)) (ScanAcc.mk 0 MAXV 0 0)).newStartIndex)
          sum := ((w.observations ++ [Obs.mk t c]).foldl
            (scanStep (t - w.TAU)) (ScanAcc.mk 0 MAXV 0 0)).sum
          min := ((w.observations ++ [Obs.mk t c]).foldl
            (scanStep (t - w.TAU)) (ScanAcc.mk 0 MAXV 0 0)).min
          max := ((w.observations ++ [Obs.mk t c]).foldl
            (scanStep (t - w.TAU)) (ScanAcc.mk 0 MAXV 0 0)).max } := by
  unfold RollingTime.put
  rw [if_neg h]

theorem put_TAU (w : RollingTime) (t c : ℚ) : (w.put t c).TAU = w.TAU := by
  unfold RollingTime.put
  split <;> rfl

theorem scan_newStartIndex (cut : ℚ) (l : List Obs) :
    ∀ a : ScanAcc, (l.foldl (scanStep cut) a).newStartIndex =
      a.newStartIndex + l.countP fun o => o.timestamp ≤ cut := by
  induction l with
  | nil => intro a; simp
  | cons o l ih =>
      intro a
      rw [List.foldl_cons, ih]
      by_cases h : o.timestamp ≤ cut
      · simp [scanStep, h, List.countP_cons]
        omega
      · simp [scanStep, h, List.countP_cons]

theorem scan_sum (cut : ℚ) (l : List Obs) :
    ∀ a : ScanAcc, (l.foldl (scanStep cut) a).sum =
      ((l.filter fun o => cut < o.timestamp).map Obs.cost).foldl (· + ·) a.sum := by
  induction l with
  | nil => intro a; simp
  | cons o l ih =>
      intro a
      rw [List.foldl_cons, ih]
      by_cases h : o.timestamp ≤ cut
      · simp [scanStep, h, List.filter_cons, not_lt.mpr h]
      · simp [scanStep, h, List.filter_cons, not_le.mp h]

theorem scan_min (cut : ℚ) (l : List Obs) :
    ∀ a : ScanAcc, (l.foldl (scanStep cut) a).min =
      ((l.filter fun o => cut < o.timestamp).map Obs.cost).foldl Min.min a.min := by
  induction l with
  | nil => intro a; simp
  | cons o l ih =>
      intro a
      rw [List.foldl_cons, ih]
      by_cases h : o.timestamp ≤ cut
      · simp [scanStep, h, List.filter_cons, not_lt.mpr h]
      · simp [scanStep, h, List.filter_cons, not_le.mp h]

theorem scan_max (cut : ℚ) (l : List Obs) :
    ∀ a : ScanAcc, (l.foldl (scanStep cut) a).max =
      ((l.filter fun o => cut < o.timestamp).map Obs.cost).foldl Max.max a.max := by
  induction l with
  | nil => intro a; simp
  | cons o l ih =>
      intro a
      rw [List.foldl_cons, ih]
      by_cases h : o.timestamp ≤ cut
      · simp [scanStep, h, List.filter_cons, not_lt.mpr h]
      · simp [scanStep, h, List.filter_cons, not_le.mp h]

theorem foldl_add_eq_sum (l : List ℚ) : ∀ a : ℚ, l.foldl (· + ·) a = a + l.sum := by
  induction l with
  | nil => intro a; simp
  | cons x l ih => intro a; rw [List.foldl_cons, ih]; simp [add_assoc]

theorem foldl_min_le_init (l : List ℚ) : ∀ a : ℚ, l.foldl Min.min a ≤ a := by
  induction l with
  | nil => intro a; simp
  | cons x l ih =>
      intro a
      rw [List.foldl_cons]
      exact le_trans (ih _) (min_le_left _ _)

theorem foldl_min_le (l : List ℚ) : ∀ (a x : ℚ), x ∈ l → l.foldl Min.min a ≤ x := by
  induction l with
  | nil => intro a x hx; cases hx
  | cons y l ih =>
      intro a x hx
      rw [List.foldl_cons]
      rcases List.mem_cons.mp hx with rfl | hx
      · exact le_trans (foldl_min_le_init l _) (min_le_right _ _)
      · exact ih _ _ hx

theorem foldl_min_mem (l : List ℚ) : ∀ a : ℚ, l.foldl Min.min a = a ∨ l.foldl Min.min a ∈ l := by
  induction l with
  | nil => intro a; left; rfl
  | cons y l ih =>
      intro a
      rw [List.foldl_cons]
      rcases ih (Min.min a y) with h | h
      · rcases min_choice a y with h' | h'
        · left; rw [h, h']
        · right; rw [h, h']; exact List.mem_cons_self _ _
      · right; exact List.mem_cons_of_mem _ h

theorem foldl_max_init_le (l : List ℚ) : ∀ a : ℚ, a ≤ l.foldl Max.max a := by
  induction l with
  | nil => intro a; simp
  | cons x l ih =>
      intro a
      rw [List.foldl_cons]
      exact le_trans (le_max_left _ _) (ih _)

theorem foldl_max_le (l : List ℚ) : ∀ (a x : ℚ), x ∈ l → x ≤ l.foldl Max.max a := by
  induction l with
  | nil => intro a x hx; cases hx
  | cons y l ih =>
      intro a x hx
      rw [List.foldl_cons]
      rcases List.mem_cons.mp hx with rfl | hx
      · exact le_trans (le_max_right _ _) (foldl_max_init_le l _)
      · exact ih _ _ hx

theorem foldl_max_mem (l : List ℚ) : ∀ a : ℚ, l.foldl Max.max a = a ∨ l.foldl Max.max a ∈ l := by
  induction l with
  | nil => intro a; left; rfl
  | cons y l ih =>
      intro a
      rw [List.foldl_cons]
      rcases ih (Max.max a y) with h | h
      · rcases max_choice a y with h' | h'
        · left; rw [h, h']
        · right; rw [h, h']; exact List.mem_cons_self _ _
      · right; exact List.mem_cons_of_mem _ h

/-- On a buffer sorted by timestamp the expired observations form a
prefix, so the elements retained by the scan (`timestamp > cutoff`) are
exactly what is left after slicing off the first `newStartIndex`
(`= countP expired`) elements. -/
theorem sorted_filter_eq_drop (cut : ℚ) :
    ∀ l : List Obs, l.Pairwise (fun a b => a.timestamp ≤ b.timestamp) →
      (l.filter fun o => cut < o.timestamp) =
        l.drop (l.countP fun o => o.timestamp ≤ cut) := by
  intro l
  induction l with
  | nil => intro _; simp
  | cons o l ih =>
      intro hs
      rw [List.pairwise_cons] at hs
      obtain ⟨h1, h2⟩ := hs
      by_cases h : o.timestamp ≤ cut
      · rw [List.filter_cons, List.countP_cons, ih h2]
        simp [h, not_lt.mpr h]
      · have hzero : (l.countP fun o => o.timestamp ≤ cut) = 0 := by
          rw [List.countP_eq_zero]
          intro b hb
          simp only [decide_eq_true_eq]
          intro hc
          exact h (le_trans (h1 b hb) hc)
        have hall : (l.filter fun o => cut < o.timestamp) = l := by
          rw [List.filter_eq_self]
          intro b hb
          simp only [decide_eq_true_eq]
          exact lt_of_lt_of_le (not_le.mp h) (h1 b hb)
        rw [List.filter_cons, List.countP_cons]
        simp [h, not_le.mp h, hzero, hall]

/-- Appending the freshly pushed observation keeps the buffer sorted when
all buffered timestamps are bounded by the new one. -/
theorem append_sorted (w : RollingTime) (T t c : ℚ)
    (hsort : w.observations.Pairwise (fun a b => a.timestamp ≤ b.timestamp))
    (hB : TimeBound w T) (hT : T ≤ t) :
    (w.observations ++ [Obs.mk t c]).Pairwise (fun a b => a.timestamp ≤ b.timestamp) := by
  rw [List.pairwise_append]
  refine ⟨hsort, List.pairwise_singleton _ _, ?_⟩
  intro a ha b hb
  rw [List.mem_singleton] at hb
  subst hb
  exact le_trans (hB a ha) hT

/-- In the eviction branch the new buffer is exactly the retained
(`timestamp > cutoff`) part of the pushed buffer. -/
theorem put_obs_slow (w : RollingTime) (t c : ℚ)
    (h : ¬ t - w.TAU < ((w.observations ++ [Obs.mk t c]).headI).timestamp)
    (hsort : (w.observations ++ [Obs.mk t c]).Pairwise
      (fun a b => a.timestamp ≤ b.timestamp)) :
    (w.put t c).observations =
      ((w.observations ++ [Obs.mk t c]).filter fun o => t - w.TAU < o.timestamp) := by
  rw [put_slow w t c h]
  show (w.observations ++ [Obs.mk t c]).drop _ = _
  rw [scan_newStartIndex]
  simp only [Nat.zero_add]
  exact (sorted_filter_eq_drop _ _ hsort).symm

theorem put_obs_mem (w : RollingTime) (t c : ℚ) {o : Obs}
    (ho : o ∈ (w.put t c).observations) : o ∈ w.observations ∨ o = Obs.mk t c := by
  unfold RollingTime.put at ho
  split at ho
  · rcases List.mem_append.mp ho with h | h
    · exact Or.inl h
    · exact Or.inr (List.mem_singleton.mp h)
  · have := List.mem_of_mem_drop ho
    rcases List.mem_append.mp this with h | h
    · exact Or.inl h
    · exact Or.inr (List.mem_singleton.mp h)

/-- With a positive window size, `put` always retains at least the
observation it just pushed. -/
theorem put_obs_ne_nil (w : RollingTime) (t c : ℚ) (hTAU : 0 < w.TAU) :
    (w.put t c).observations ≠ [] := by
  unfold RollingTime.put
  split
  · simp
  · show (w.observations ++ [Obs.mk t c]).drop _ ≠ []
    rw [scan_newStartIndex]
    simp only [Nat.zero_add]
    intro hnil
    rw [List.drop_eq_nil_iff] at hnil
    have hlt : ((w.observations ++ [Obs.mk t c]).countP fun o => o.timestamp ≤ t - w.TAU) <
        (w.observations ++ [Obs.mk t c]).length := by
      rcases lt_or_eq_of_le (List.countP_le_length
        (p := fun o => decide (o.timestamp ≤ t - w.TAU))
        (l := w.observations ++ [Obs.mk t c])) with h | h
      · exact h
      · exfalso
        rw [List.countP_eq_length] at h
        have := h (Obs.mk t c) (by simp)
        rw [decide_eq_true_eq] at this
        simp only [Obs.mk] at this
        linarith
    omega

theorem headI_le_of_sorted (l : List Obs)
    (hs : l.Pairwise (fun a b => a.timestamp ≤ b.timestamp)) :
    ∀ o ∈ l, l.headI.timestamp ≤ o.timestamp := by
  cases l with
  | nil => intro o ho; cases ho
  | cons a l =>
      intro o ho
      rw [List.pairwise_cons] at hs
      rcases List.mem_cons.mp ho with rfl | ho
      · exact le_refl _
      · exact hs.1 o ho

/-- `put` preserves the aggregate invariant and bounds the buffered
timestamps by the new timestamp, for any next timestamp `t` at least the
bound `T` of the current buffer. -/
theorem put_inv (w : RollingTime) (T t c : ℚ)
    (hI : AggInv w) (hB : TimeBound w T) (hT : T ≤ t) :
    AggInv (w.put t c) ∧ TimeBound (w.put t c) t := by
  obtain ⟨hsort, hsum, hmin, hmax⟩ := hI
  have hlsort := append_sorted w T t c hsort hB hT
  constructor
  · by_cases h : t - w.TAU < ((w.observations ++ [Obs.mk t c]).headI).timestamp
    · rw [put_fast w t c h]
      refine ⟨hlsort, ?_, ?_, ?_⟩
      · show w.sum + c = ((w.observations ++ [Obs.mk t c]).map Obs.cost).sum
        rw [hsum]
        simp
      · show Min.min w.min c =
          ((w.observations ++ [Obs.mk t c]).map Obs.cost).foldl Min.min MAXV
        rw [hmin]
        simp [List.foldl_append]
      · show Max.max w.max c =
          ((w.observations ++ [Obs.mk t c]).map Obs.cost).foldl Max.max 0
        rw [hmax]
        simp [List.foldl_append]
    · have hobs := put_obs_slow w t c h hlsort
      have hsum' : (w.put t c).sum =
          (((w.observations ++ [Obs.mk t c]).filter
            fun o => t - w.TAU < o.timestamp).map Obs.cost).foldl (· + ·) 0 := by
        rw [put_slow w t c h]
        exact scan_sum _ _ _
      have hmin' : (w.put t c).min =
          (((w.observations ++ [Obs.mk t c]).filter
            fun o => t - w.TAU < o.timestamp).map Obs.cost).foldl Min.min MAXV := by
        rw [put_slow w t c h]
        exact scan_min _ _ _
      have hmax' : (w.put t c).max =
          (((w.observations ++ [Obs.mk t c]).filter
            fun o => t - w.TAU < o.timestamp).map Obs.cost).foldl Max.max 0 := by
        rw [put_slow w t c h]
        exact scan_max _ _ _
      refine ⟨?_, ?_, ?_, ?_⟩
      · rw [hobs]
        exact List.Pairwise.sublist (List.filter_sublist _) hlsort
      · rw [hsum', hobs, foldl_add_eq_sum, zero_add]
      · rw [hmin', hobs]
      · rw [hmax', hobs]
  · intro o ho
    rcases put_obs_mem w t c ho with h | h
    · exact le_trans (hB o h) hT
    · subst h; exact le_refl t

/-- After `put t c`, every retained observation is strictly inside the
window: `t - o.timestamp < TAU`. -/
theorem put_window (w : RollingTime) (T t c : ℚ)
    (hI : AggInv w) (hB : TimeBound w T) (hT : T ≤ t) :
    ∀ o ∈ (w.put t c).observations, t - o.timestamp < w.TAU := by
  obtain ⟨hsort, -, -, -⟩ := hI
  have hlsort := append_sorted w T t c hsort hB hT
  intro o ho
  by_cases h : t - w.TAU < ((w.observations ++ [Obs.mk t c]).headI).timestamp
  · rw [put_fast w t c h] at ho
    have hhead := headI_le_of_sorted _ hlsort o ho
    rw [sub_lt_comm]
    exact lt_of_lt_of_le h hhead
  · rw [put_obs_slow w t c h hlsort] at ho
    rw [List.mem_filter] at ho
    rw [sub_lt_comm]
    exact of_decide_eq_true ho.2

/-- Every observation dropped by `put t c` was expired:
`t - o.timestamp ≥ TAU` at the time of eviction. -/
theorem put_evicted (w : RollingTime) (T t c : ℚ)
    (hI : AggInv w) (hB : TimeBound w T) (hT : T ≤ t) :
    ∀ o ∈ w.observations ++ [Obs.mk t c],
      o ∉ (w.put t c).observations → w.TAU ≤ t - o.timestamp := by
  obtain ⟨hsort, -, -, -⟩ := hI
  have hlsort := append_sorted w T t c hsort hB hT
  intro o ho hno
  by_cases h : t - w.TAU < ((w.observations ++ [Obs.mk t c]).headI).timestamp
  · rw [put_fast w t c h] at hno
    exact absurd ho hno
  · rw [put_obs_slow w t c h hlsort] at hno
    rw [le_sub_comm]
    by_contra hlt
    exact hno (List.mem_filter.mpr ⟨ho, decide_eq_true (not_le.mp hlt)⟩)

theorem applyPuts_nil (w : RollingTime) : applyPuts w [] = w := rfl

theorem applyPuts_cons (w : RollingTime) (p : ℚ × ℚ) (ps : List (ℚ × ℚ)) :
    applyPuts w (p :: ps) = applyPuts (w.put p.1 p.2) ps := rfl

theorem applyPuts_append (w : RollingTime) (ps qs : List (ℚ × ℚ)) :
    applyPuts w (ps ++ qs) = applyPuts (applyPuts w ps) qs := by
  simp [applyPuts, List.foldl_append]

theorem applyPuts_TAU (ps : List (ℚ × ℚ)) :
    ∀ w : RollingTime, (applyPuts w ps).TAU = w.TAU := by
  induction ps with
  | nil => intro w; rfl
  | cons p ps ih =>
      intro w
      rw [applyPuts_cons, ih, put_TAU]

/-- Every buffered observation was either already buffered or comes from
one of the executed `put` calls. -/
theorem applyPuts_obs_mem (ps : List (ℚ × ℚ)) :
    ∀ (w : RollingTime) (o : Obs), o ∈ (applyPuts w ps).observations →
      o ∈ w.observations ∨ ∃ p ∈ ps, o = Obs.mk p.1 p.2 := by
  induction ps with
  | nil => intro w o ho; exact Or.inl ho
  | cons p ps ih =>
      intro w o ho
      rw [applyPuts_cons] at ho
      rcases ih _ o ho with h | h
      · rcases put_obs_mem w p.1 p.2 h with h' | h'
        · exact Or.inl h'
        · exact Or.inr ⟨p, List.mem_cons_self _ _, h'⟩
      · obtain ⟨q, hq, hq'⟩ := h
        exact Or.inr ⟨q, List.mem_cons_of_mem _ hq, hq'⟩

/-- Running a sorted batch of `put` calls whose timestamps dominate the
buffered ones preserves the aggregate invariant. -/
theorem applyPuts_inv (ps : List (ℚ × ℚ)) :
    ∀ w : RollingTime, AggInv w →
      (∀ o ∈ w.observations, ∀ p ∈ ps, o.timestamp ≤ p.1) →
      ps.Pairwise (fun a b => a.1 ≤ b.1) →
      AggInv (applyPuts w ps) := by
  induction ps with
  | nil => intro w hI _ _; exact hI
  | cons p ps ih =>
      intro w hI hTB hsort
      rw [List.pairwise_cons] at hsort
      have hstep := put_inv w p.1 p.1 p.2 hI
        (fun o ho => hTB o ho p (List.mem_cons_self _ _)) (le_refl _)
      rw [applyPuts_cons]
      refine ih _ hstep.1 ?_ hsort.2
      intro o ho q hq
      rcases put_obs_mem w p.1 p.2 ho with h | h
      · exact hTB o h q (List.mem_cons_of_mem _ hq)
      · subst h
        exact hsort.1 q hq

theorem new_inv (TAU : ℚ) : AggInv (RollingTime.new TAU) := by
  refine ⟨?_, ?_, ?_, ?_⟩ <;> simp [RollingTime.new]

/-- With a positive window size, the buffer is non-empty after any
non-empty batch of `put` calls. -/
theorem applyPuts_obs_ne_nil (w : RollingTime) (ps : List (ℚ × ℚ))
    (hTAU : 0 < w.TAU) (hne : ps ≠ []) :
    (applyPuts w ps).observations ≠ [] := by
  induction ps using List.reverseRecOn with
  | nil => exact absurd rfl hne
  | append_singleton qs p _ =>
      rw [applyPuts_append]
      have : (applyPuts w qs).TAU = w.TAU := applyPuts_TAU qs w
      exact put_obs_ne_nil _ p.1 p.2 (this ▸ hTAU)

theorem nonDecreasing_pairwise {ps : List (ℚ × ℚ)} (h : nonDecreasing ps) :
    ps.Pairwise (fun a b => a.1 ≤ b.1) := by
  haveI : IsTrans (ℚ × ℚ) fun a b => a.1 ≤ b.1 :=
    ⟨fun _ _ _ hab hbc => le_trans hab hbc⟩
  exact List.chain'_iff_pairwise.mp h

/-- The invariant holds after any sorted batch against a fresh window. -/
theorem run_inv (TAU : ℚ) (ps : List (ℚ × ℚ)) (hsort : nonDecreasing ps) :
    AggInv (applyPuts (RollingTime.new TAU) ps) := by
  refine applyPuts_inv ps _ (new_inv TAU) ?_ (nonDecreasing_pairwise hsort)
  intro o ho
  simp [RollingTime.new] at ho

theorem run_timeBound (TAU : ℚ) (pre : List (ℚ × ℚ)) (t : ℚ)
    (hle : ∀ p ∈ pre, p.1 ≤ t) :
    TimeBound (applyPuts (RollingTime.new TAU) pre) t := by
  intro o ho
  rcases applyPuts_obs_mem pre _ o ho with h | ⟨p, hp, rfl⟩
  · simp [RollingTime.new] at h
  · exact hle p hp

theorem run_inv_of_pairwise (TAU : ℚ) (ps : List (ℚ × ℚ))
    (hpair : ps.Pairwise fun a b => a.1 ≤ b.1) :
    AggInv (applyPuts (RollingTime.new TAU) ps) := by
  refine applyPuts_inv ps _ (new_inv TAU) ?_ hpair
  intro o ho
  simp [RollingTime.new] at ho

/-- The first `put` against a fresh window (positive `TAU`) takes the fast
path and yields a one-element buffer. -/
theorem put_first (TAU t c : ℚ) (hTAU : 0 < TAU) :
    ((RollingTime.new TAU).put t c).observations = [Obs.mk t c] := by
  have h : t - (RollingTime.new TAU).TAU <
      (((RollingTime.new TAU).observations ++ [Obs.mk t c]).headI).timestamp := by
    show t - TAU < (([] ++ [Obs.mk t c]).headI).timestamp
    simp
    linarith
  rw [put_fast _ _ _ h]
  show (RollingTime.new TAU).observations ++ [Obs.mk t c] = [Obs.mk t c]
  rfl

/-- A `put` whose timestamp exceeds the single buffered one by more than
`TAU` rolls the window over to exactly the new observation. -/
theorem put_roll (w : RollingTime) (t0 c0 t c : ℚ) (hTAU : 0 < w.TAU)
    (hobs : w.observations = [Obs.mk t0 c0]) (hgap : t0 + w.TAU < t) :
    (w.put t c).observations = [Obs.mk t c] := by
  have h1 : ¬ (t - w.TAU < t0) := by linarith
  have h2 : t - w.TAU < t := by linarith
  have h : ¬ t - w.TAU < ((w.observations ++ [Obs.mk t c]).headI).timestamp := by
    rw [hobs]
    show ¬ t - w.TAU < (([Obs.mk t0 c0] ++ [Obs.mk t c]).headI).timestamp
    simpa using h1
  have hsort : (w.observations ++ [Obs.mk t c]).Pairwise
      (fun a b => a.timestamp ≤ b.timestamp) := by
    rw [hobs]
    simp [List.pairwise_cons]
    show t0 ≤ t
    linarith
  rw [put_obs_slow w t c h hsort, hobs]
  simp [List.filter_cons, h1, h2]

/-- Rolling repeatedly with gaps strictly larger than `TAU` keeps the
buffer a singleton holding the last inserted observation. -/
theorem applyPuts_gap_singleton (TAU : ℚ) (hTAU : 0 < TAU) (ps : List (ℚ × ℚ)) :
    ∀ (w : RollingTime) (t c : ℚ),
      w.TAU = TAU → w.observations = [Obs.mk t c] →
      List.Chain (fun a b => a.1 + TAU < b.1) (t, c) ps →
      (applyPuts w ps).observations =
        [Obs.mk (ps.getLastD (t, c)).1 (ps.getLastD (t, c)).2] := by
  induction ps with
  | nil =>
      intro w t c _ hobs _
      simpa using hobs
  | cons p ps ih =>
      intro w t c hT hobs hchain
      rw [List.chain_cons] at hchain
      rw [applyPuts_cons]
      have hstep : (w.put p.1 p.2).observations = [Obs.mk p.1 p.2] :=
        put_roll w t c p.1 p.2 (hT ▸ hTAU) hobs (by rw [hT]; exact hchain.1)
      have := ih (w.put p.1 p.2) p.1 p.2 (by rw [put_TAU, hT]) hstep hchain.2
      rw [this, List.getLastD_cons]

/-- Against a fresh window with positive `TAU`, a non-empty sorted batch
whose costs lie in `[0, Number.MAX_VALUE]` ends with `sum` equal to the
buffered total and `min`/`max` equal to the true buffered extrema. -/
theorem agg_ok (TAU : ℚ) (ps : List (ℚ × ℚ)) (hTAU : 0 < TAU) (hne : ps ≠ [])
    (hpair : ps.Pairwise fun a b => a.1 ≤ b.1)
    (hrange : ∀ p ∈ ps, 0 ≤ p.2 ∧ p.2 ≤ MAXV) :
    (applyPuts (RollingTime.new TAU) ps).sum =
      ((applyPuts (RollingTime.new TAU) ps).observations.map Obs.cost).sum ∧
    ((applyPuts (RollingTime.new TAU) ps).min ∈
        (applyPuts (RollingTime.new TAU) ps).observations.map Obs.cost ∧
      ∀ x ∈ (applyPuts (RollingTime.new TAU) ps).observations.map Obs.cost,
        (applyPuts (RollingTime.new TAU) ps).min ≤ x) ∧
    ((applyPuts (RollingTime.new TAU) ps).max ∈
        (applyPuts (RollingTime.new TAU) ps).observations.map Obs.cost ∧
      ∀ x ∈ (applyPuts (RollingTime.new TAU) ps).observations.map Obs.cost,
        x ≤ (applyPuts (RollingTime.new TAU) ps).max) := by
  obtain ⟨hsort, hsum, hmin, hmax⟩ := run_inv_of_pairwise TAU ps hpair
  have hobsne : (applyPuts (RollingTime.new TAU) ps).observations ≠ [] :=
    applyPuts_obs_ne_nil (RollingTime.new TAU) ps hTAU hne
  have hrange' : ∀ x ∈ (applyPuts (RollingTime.new TAU) ps).observations.map Obs.cost,
      0 ≤ x ∧ x ≤ MAXV := by
    intro x hx
    rw [List.mem_map] at hx
    obtain ⟨o, ho, rfl⟩ := hx
    rcases applyPuts_obs_mem ps _ o ho with h | ⟨p, hp, rfl⟩
    · simp [RollingTime.new] at h
    · exact hrange p hp
  have hcsne : (applyPuts (RollingTime.new TAU) ps).observations.map Obs.cost ≠ [] := by
    intro hcs
    exact hobsne (List.map_eq_nil_iff.mp hcs)
  refine ⟨hsum, ⟨?_, ?_⟩, ?_, ?_⟩
  · rcases foldl_min_mem ((applyPuts (RollingTime.new TAU) ps).observations.map Obs.cost)
      MAXV with h | h
    · rcases List.exists_cons_of_ne_nil hcsne with ⟨x, cs, hx⟩
      have h1 : ((applyPuts (RollingTime.new TAU) ps).observations.map Obs.cost).foldl
          Min.min MAXV ≤ x := by
        refine foldl_min_le _ _ _ ?_
        rw [hx]
        exact List.mem_cons_self _ _
      have h2 : x ≤ MAXV := (hrange' x (by rw [hx]; exact List.mem_cons_self _ _)).2
      have hxm : x = MAXV := le_antisymm h2 (h ▸ h1)
      rw [hmin, h, ← hxm, hx]
      exact List.mem_cons_self _ _
    · rw [hmin]
      exact h
  · intro x hx
    rw [hmin]
    exact foldl_min_le _ _ _ hx
  · rcases foldl_max_mem ((applyPuts (RollingTime.new TAU) ps).observations.map Obs.cost)
      0 with h | h
    · rcases List.exists_cons_of_ne_nil hcsne with ⟨x, cs, hx⟩
      have h1 : x ≤ ((applyPuts (RollingTime.new TAU) ps).observations.map Obs.cost).foldl
          Max.max 0 := by
        refine foldl_max_le _ _ _ ?_
        rw [hx]
        exact List.mem_cons_self _ _
      have h2 : 0 ≤ x := (hrange' x (by rw [hx]; exact List.mem_cons_self _ _)).1
      have hxm : x = 0 := le_antisymm (h ▸ h1) h2
      rw [hmax, h, ← hxm, hx]
      exact List.mem_cons_self _ _
    · rw [hmax]
      exact h
  · intro x hx
    rw [hmax]
    exact foldl_max_le _ _ _ hx

theorem parseObservation_err (line : List Char) (rtw : RollingTime) (h : badLine line) :
    ∃ e, parseObservation line rtw = Except.error e := by
  unfold parseObservation
  by_cases h2 : (splitTab line).length ≠ 2
  · rw [if_pos h2]
    exact ⟨_, rfl⟩
  · rw [if_neg h2]
    rcases h with h | h | h
    · exact absurd h h2
    · rw [h]
      exact ⟨_, rfl⟩
    · cases hj : jsNumber ((splitTab line).getD 0 []) with
      | none => exact ⟨_, rfl⟩
      | some q => rw [h]; exact ⟨_, rfl⟩

theorem processLine_err (st : BatchState) (line : List Char) (h : badLine line) :
    ∃ e, processLine st line =
      { curLine := st.curLine + 1, rtw := st.rtw,
        errors := st.errors ++ [(st.curLine + 1, e)] } := by
  obtain ⟨e, he⟩ := parseObservation_err line st.rtw h
  refine ⟨e, ?_⟩
  unfold processLine
  rw [he]

theorem processLine_curLine (st : BatchState) (line : List Char) :
    (processLine st line).curLine = st.curLine + 1 := by
  unfold processLine
  cases h : parseObservation line st.rtw <;> rfl

theorem foldl_processLine_curLine (lines : List (List Char)) :
    ∀ st : BatchState, (lines.foldl processLine st).curLine = st.curLine + lines.length := by
  induction lines with
  | nil => intro st; simp
  | cons l ls ih =>
      intro st
      rw [List.foldl_cons, ih, processLine_curLine, List.length_cons]
      omega

theorem runBatch_append (tau : ℚ) (lines more : List (List Char)) :
    runBatch tau (lines ++ more) = more.foldl processLine (runBatch tau lines) := by
  simp [runBatch, List.foldl_append]

theorem runBatch_curLine (tau : ℚ) (lines : List (List Char)) :
    (runBatch tau lines).curLine = lines.length := by
  show (lines.foldl processLine _).curLine = lines.length
  rw [foldl_processLine_curLine]
  simp

theorem jsNumber_wsOnly (cs : List Char) (h : wsOnly cs) : jsNumber cs = some 0 := by
  unfold jsNumber
  have h1 : cs.dropWhile isJsWhitespace = [] := List.dropWhile_eq_nil_iff.mpr h
  rw [h1]
  rfl

/-!  Claim theorems.  -/

/-- C1 counterexample: with `windowDuration = 1` and the single
non-decreasing `Put(0, -1)`, the buffered costs are `[-1]` but `max` is
`0` (the constructor sentinel), not the true maximum `-1`: the claimed
invariant fails for negative cost values. -/
theorem C1_counterexample :
    (0 : ℚ) < 1 ∧ nonDecreasing [((0 : ℚ), (-1 : ℚ))] ∧
    (applyPuts (RollingTime.new 1) [((0 : ℚ), (-1 : ℚ))]).observations.map Obs.cost =
      [(-1 : ℚ)] ∧
    (applyPuts (RollingTime.new 1) [((0 : ℚ), (-1 : ℚ))]).max = 0 := by
  refine ⟨by norm_num, by simp [nonDecreasing], ?_, ?_⟩ <;>
    norm_num [applyPuts, RollingTime.put, RollingTime.new, MAXV]

/-- C1 (amended): for every window with positive `windowDuration` and
every sequence of `Put` calls with non-decreasing timestamps whose cost
values all lie in `[0, Number.MAX_VALUE]`, after each `Put` (i.e. after
each non-empty front part `pre` of the sequence) `sum` equals the exact
sum of the buffered costs and `min`/`max` are a buffered cost that bounds
all buffered costs from below/above. -/
theorem C1_amended (TAU : ℚ) (ps : List (ℚ × ℚ)) (hTAU : 0 < TAU)
    (hsort : nonDecreasing ps) (hrange : ∀ p ∈ ps, 0 ≤ p.2 ∧ p.2 ≤ MAXV) :
    ∀ pre suf : List (ℚ × ℚ), ps = pre ++ suf → pre ≠ [] →
      (applyPuts (RollingTime.new TAU) pre).sum =
        ((applyPuts (RollingTime.new TAU) pre).observations.map Obs.cost).sum ∧
      ((applyPuts (RollingTime.new TAU) pre).min ∈
          (applyPuts (RollingTime.new TAU) pre).observations.map Obs.cost ∧
        ∀ x ∈ (applyPuts (RollingTime.new TAU) pre).observations.map Obs.cost,
          (applyPuts (RollingTime.new TAU) pre).min ≤ x) ∧
      ((applyPuts (RollingTime.new TAU) pre).max ∈
          (applyPuts (RollingTime.new TAU) pre).observations.map Obs.cost ∧
        ∀ x ∈ (applyPuts (RollingTime.new TAU) pre).observations.map Obs.cost,
          x ≤ (applyPuts (RollingTime.new TAU) pre).max) := by
  intro pre suf hps hne
  subst hps
  have hpair := nonDecreasing_pairwise hsort
  rw [List.pairwise_append] at hpair
  exact agg_ok TAU pre hTAU hne hpair.1
    (fun p hp => hrange p (List.mem_append_left _ hp))

/-- C1 witness: the amended invariant at the concrete run
`windowDuration = 1`, `Put(0, 2)` then `Put(1, 3)`, checked after the
first `Put`. -/
theorem C1_witness :
    (0 : ℚ) < 1 ∧ nonDecreasing [((0 : ℚ), (2 : ℚ)), (1, 3)] ∧
    (∀ p ∈ [((0 : ℚ), (2 : ℚ)), (1, 3)], 0 ≤ p.2 ∧ p.2 ≤ MAXV) ∧
    (applyPuts (RollingTime.new 1) [((0 : ℚ), (2 : ℚ))]).sum =
      ((applyPuts (RollingTime.new 1) [((0 : ℚ), (2 : ℚ))]).observations.map Obs.cost).sum :=
  ⟨by norm_num, by simp [nonDecreasing], by norm_num [MAXV],
    (C1_amended 1 [(0, 2), (1, 3)] (by norm_num) (by simp [nonDecreasing])
      (by norm_num [MAXV]) [(0, 2)] [(1, 3)] rfl (by simp)).1⟩

/-- C2: for a positive window and a non-decreasing input sequence ending
with a `Put` at timestamp `t`, an observation whose age `t - o.timestamp`
is exactly `windowDuration` is not in the buffer afterwards, and every
retained observation has age strictly less than `windowDuration`. -/
theorem C2_boundary_eviction (TAU t c : ℚ) (pre : List (ℚ × ℚ))
    (_hTAU : 0 < TAU) (hsort : nonDecreasing (pre ++ [(t, c)])) :
    (∀ o ∈ (applyPuts (RollingTime.new TAU) pre).observations ++ [Obs.mk t c],
        t - o.timestamp = TAU →
        o ∉ (applyPuts (RollingTime.new TAU) (pre ++ [(t, c)])).observations) ∧
    (∀ o ∈ (applyPuts (RollingTime.new TAU) (pre ++ [(t, c)])).observations,
        t - o.timestamp < TAU) := by
  have hpair := nonDecreasing_pairwise hsort
  rw [List.pairwise_append] at hpair
  obtain ⟨hpre, -, hcross⟩ := hpair
  have hle : ∀ p ∈ pre, p.1 ≤ t := fun p hp => hcross p hp (t, c) (by simp)
  have hI := run_inv_of_pairwise TAU pre hpre
  have hB := run_timeBound TAU pre t hle
  have hw := put_window (applyPuts (RollingTime.new TAU) pre) t t c hI hB (le_refl t)
  have hTAUeq : (applyPuts (RollingTime.new TAU) pre).TAU = TAU := applyPuts_TAU pre _
  have hsplit : applyPuts (RollingTime.new TAU) (pre ++ [(t, c)]) =
      (applyPuts (RollingTime.new TAU) pre).put t c := by
    rw [applyPuts_append]
    rfl
  rw [hTAUeq] at hw
  constructor
  · intro o _ heq hmem
    rw [hsplit] at hmem
    have hlt := hw o hmem
    rw [heq] at hlt
    exact lt_irrefl TAU hlt
  · intro o hmem
    rw [hsplit] at hmem
    exact hw o hmem

/-- C2 witness: with `windowDuration = 10` and the run
`Put(1, 1); Put(11, 2)`, the observation at timestamp `1` (age exactly
`10`) is evicted. -/
theorem C2_witness :
    (0 : ℚ) < 10 ∧ nonDecreasing ([((1 : ℚ), (1 : ℚ))] ++ [(11, 2)]) ∧
    Obs.mk 1 1 ∉ (applyPuts (RollingTime.new 10) ([((1 : ℚ), (1 : ℚ))] ++ [(11, 2)])).observations :=
  ⟨by norm_num, by simp [nonDecreasing],
    (C2_boundary_eviction 10 11 2 [(1, 1)] (by norm_num) (by simp [nonDecreasing])).1
      (Obs.mk 1 1)
      (by norm_num [applyPuts, RollingTime.put, RollingTime.new, MAXV])
      (by norm_num)⟩

/-- C3: for a positive window and a non-decreasing input sequence ending
with a `Put` at timestamp `t`, every buffered observation satisfies
`t - o.timestamp < windowDuration`, and every observation dropped by
that `Put` had `t - o.timestamp ≥ windowDuration`. -/
theorem C3_window_membership (TAU t c : ℚ) (pre : List (ℚ × ℚ))
    (_hTAU : 0 < TAU) (hsort : nonDecreasing (pre ++ [(t, c)])) :
    (∀ o ∈ (applyPuts (RollingTime.new TAU) (pre ++ [(t, c)])).observations,
        t - o.timestamp < TAU) ∧
    (∀ o ∈ (applyPuts (RollingTime.new TAU) pre).observations ++ [Obs.mk t c],
        o ∉ (applyPuts (RollingTime.new TAU) (pre ++ [(t, c)])).observations →
        TAU ≤ t - o.timestamp) := by
  have hpair := nonDecreasing_pairwise hsort
  rw [List.pairwise_append] at hpair
  obtain ⟨hpre, -, hcross⟩ := hpair
  have hle : ∀ p ∈ pre, p.1 ≤ t := fun p hp => hcross p hp (t, c) (by simp)
  have hI := run_inv_of_pairwise TAU pre hpre
  have hB := run_timeBound TAU pre t hle
  have hw := put_window (applyPuts (RollingTime.new TAU) pre) t t c hI hB (le_refl t)
  have hev := put_evicted (applyPuts (RollingTime.new TAU) pre) t t c hI hB (le_refl t)
  have hTAUeq : (applyPuts (RollingTime.new TAU) pre).TAU = TAU := applyPuts_TAU pre _
  have hsplit : applyPuts (RollingTime.new TAU) (pre ++ [(t, c)]) =
      (applyPuts (RollingTime.new TAU) pre).put t c := by
    rw [applyPuts_append]
    rfl
  rw [hTAUeq] at hw hev
  constructor
  · intro o hmem
    rw [hsplit] at hmem
    exact hw o hmem
  · intro o ho hno
    rw [hsplit] at hno
    exact hev o ho hno

/-- C3 witness: with `windowDuration = 10` and the run
`Put(1, 1); Put(12, 2)`, the retained observation at timestamp `12` is
inside the window. -/
theorem C3_witness :
    (0 : ℚ) < 10 ∧ nonDecreasing ([((1 : ℚ), (1 : ℚ))] ++ [(12, 2)]) ∧
    (12 : ℚ) - (Obs.mk (12 : ℚ) (2 : ℚ)).timestamp < 10 :=
  ⟨by norm_num, by simp [nonDecreasing],
    (C3_window_membership 10 12 2 [(1, 1)] (by norm_num) (by simp [nonDecreasing])).1
      (Obs.mk 12 2)
      (by norm_num [applyPuts, RollingTime.put, RollingTime.new, scanStep, MAXV])⟩

/-- C4 counterexample: a fresh window with `windowDuration = 2` and the
single `Put(5, -3)` ends with count `1` and `sum = -3` but `max = 0`
(the sentinel), not `-3`: the claim fails for negative values. -/
theorem C4_counterexample :
    ((RollingTime.new 2).put 5 (-3)).observations = [Obs.mk 5 (-3)] ∧
    ((RollingTime.new 2).put 5 (-3)).max = 0 := by
  constructor <;> norm_num [RollingTime.put, RollingTime.new, MAXV]

/-- C4 (amended): for every positive `windowDuration`, every timestamp
`t` and every value `v` with `0 ≤ v ≤ Number.MAX_VALUE`, a fresh window
followed by exactly one `Put(t, v)` has the single observation
`(t, v)` and `sum = min = max = v`. -/
theorem C4_amended (TAU t v : ℚ) (hTAU : 0 < TAU) (h0 : 0 ≤ v) (hM : v ≤ MAXV) :
    ((RollingTime.new TAU).put t v).observations = [Obs.mk t v] ∧
    ((RollingTime.new TAU).put t v).sum = v ∧
    ((RollingTime.new TAU).put t v).min = v ∧
    ((RollingTime.new TAU).put t v).max = v := by
  have h : t - (RollingTime.new TAU).TAU <
      (((RollingTime.new TAU).observations ++ [Obs.mk t v]).headI).timestamp := by
    show t - TAU < (([] ++ [Obs.mk t v]).headI).timestamp
    simp
    linarith
  rw [put_fast _ _ _ h]
  refine ⟨?_, ?_, ?_, ?_⟩
  · show (RollingTime.new TAU).observations ++ [Obs.mk t v] = [Obs.mk t v]
    rfl
  · show (RollingTime.new TAU).sum + v = v
    show 0 + v = v
    rw [zero_add]
  · show Min.min (RollingTime.new TAU).min v = v
    show Min.min MAXV v = v
    exact min_eq_right hM
  · show Max.max (RollingTime.new TAU).max v = v
    show Max.max 0 v = v
    exact max_eq_right h0

/-- C4 witness: the amended single-element property at
`windowDuration = 1`, `Put(0, 2)`. -/
theorem C4_witness :
    (0 : ℚ) < 1 ∧ (0 : ℚ) ≤ 2 ∧ (2 : ℚ) ≤ MAXV ∧
    (((RollingTime.new 1).put 0 2).observations = [Obs.mk 0 2] ∧
      ((RollingTime.new 1).put 0 2).sum = 2 ∧
      ((RollingTime.new 1).put 0 2).min = 2 ∧
      ((RollingTime.new 1).put 0 2).max = 2) :=
  ⟨by norm_num, by norm_num, by norm_num [MAXV],
    C4_amended 1 0 2 (by norm_num) (by norm_num) (by norm_num [MAXV])⟩

/-- C5 counterexample: constructing with `windowDuration = 0` (a
non-positive duration) does not fail: it silently returns the ordinary
initial window state with `TAU = 0` stored unchanged. -/
theorem C5_counterexample :
    (RollingTime.new 0).TAU = 0 ∧ (RollingTime.new 0).observations = [] ∧
    (RollingTime.new 0).sum = 0 ∧ (RollingTime.new 0).min = MAXV ∧
    (RollingTime.new 0).max = 0 :=
  ⟨rfl, rfl, rfl, rfl, rfl⟩

/-- C5 (amended): construction performs no validation: any
`windowDuration ≤ 0` is silently accepted, stored unchanged, and the
usual initial state is produced (no error value or exception exists in
the constructor). -/
theorem C5_amended (TAU : ℚ) (_hTAU : TAU ≤ 0) :
    (RollingTime.new TAU).TAU = TAU ∧ (RollingTime.new TAU).observations = [] ∧
    (RollingTime.new TAU).sum = 0 ∧ (RollingTime.new TAU).min = MAXV ∧
    (RollingTime.new TAU).max = 0 :=
  ⟨rfl, rfl, rfl, rfl, rfl⟩

/-- C5 witness: the amended no-validation property at
`windowDuration = -1`. -/
theorem C5_witness :
    (-1 : ℚ) ≤ 0 ∧
    ((RollingTime.new (-1)).TAU = -1 ∧ (RollingTime.new (-1)).observations = [] ∧
      (RollingTime.new (-1)).sum = 0 ∧ (RollingTime.new (-1)).min = MAXV ∧
      (RollingTime.new (-1)).max = 0) :=
  ⟨by norm_num, C5_amended (-1) (by norm_num)⟩

/-- C6: with `windowDuration = 10`, the call sequence
`Put(1,1); Put(5,5); Put(10,10); Put(15,15); Put(30,30)` produces, after
each call in order, the aggregate states `(count, sum, min, max)` equal
to `(1,1,1,1)`, `(2,6,1,5)`, `(3,16,1,10)`, `(2,25,10,15)`,
`(1,30,30,30)`. -/
theorem C6_scenario1 :
    ((applyPuts (RollingTime.new 10) [(1, 1)]).observations.length = 1 ∧
      (applyPuts (RollingTime.new 10) [(1, 1)]).sum = 1 ∧
      (applyPuts (RollingTime.new 10) [(1, 1)]).min = 1 ∧
      (applyPuts (RollingTime.new 10) [(1, 1)]).max = 1) ∧
    ((applyPuts (RollingTime.new 10) [(1, 1), (5, 5)]).observations.length = 2 ∧
      (applyPuts (RollingTime.new 10) [(1, 1), (5, 5)]).sum = 6 ∧
      (applyPuts (RollingTime.new 10) [(1, 1), (5, 5)]).min = 1 ∧
      (applyPuts (RollingTime.new 10) [(1, 1), (5, 5)]).max = 5) ∧
    ((applyPuts (RollingTime.new 10) [(1, 1), (5, 5), (10, 10)]).observations.length = 3 ∧
      (applyPuts (RollingTime.new 10) [(1, 1), (5, 5), (10, 10)]).sum = 16 ∧
      (applyPuts (RollingTime.new 10) [(1, 1), (5, 5), (10, 10)]).min = 1 ∧
      (applyPuts (RollingTime.new 10) [(1, 1), (5, 5), (10, 10)]).max = 10) ∧
    ((applyPuts (RollingTime.new 10)
        [(1, 1), (5, 5), (10, 10), (15, 15)]).observations.length = 2 ∧
      (applyPuts (RollingTime.new 10) [(1, 1), (5, 5), (10, 10), (15, 15)]).sum = 25 ∧
      (applyPuts (RollingTime.new 10) [(1, 1), (5, 5), (10, 10), (15, 15)]).min = 10 ∧
      (applyPuts (RollingTime.new 10) [(1, 1), (5, 5), (10, 10), (15, 15)]).max = 15) ∧
    ((applyPuts (RollingTime.new 10)
        [(1, 1), (5, 5), (10, 10), (15, 15), (30, 30)]).observations.length = 1 ∧
      (applyPuts (RollingTime.new 10) [(1, 1), (5, 5), (10, 10), (15, 15), (30, 30)]).sum = 30 ∧
      (applyPuts (RollingTime.new 10) [(1, 1), (5, 5), (10, 10), (15, 15), (30, 30)]).min = 30 ∧
      (applyPuts (RollingTime.new 10) [(1, 1), (5, 5), (10, 10), (15, 15), (30, 30)]).max = 30) := by
  norm_num [applyPuts, RollingTime.put, RollingTime.new, scanStep, MAXV]

/-- C7: for every positive `windowDuration`, if consecutive `Put`
timestamps are strictly more than `windowDuration` apart then after
every such `Put` (equivalently, for every non-empty sequence with that
gap property) the buffer is exactly the one observation just
inserted. -/
theorem C7_gap_collapses (TAU : ℚ) (ps : List (ℚ × ℚ)) (hTAU : 0 < TAU)
    (hne : ps ≠ []) (hgap : ps.Chain' fun a b => a.1 + TAU < b.1) :
    (applyPuts (RollingTime.new TAU) ps).observations =
      [Obs.mk (ps.getLast hne).1 (ps.getLast hne).2] := by
  cases ps with
  | nil => exact absurd rfl hne
  | cons p ps =>
      obtain ⟨t0, c0⟩ := p
      have hchain : List.Chain (fun a b => a.1 + TAU < b.1) (t0, c0) ps := hgap
      rw [applyPuts_cons]
      have h1 := put_first TAU t0 c0 hTAU
      have h2 := applyPuts_gap_singleton TAU hTAU ps ((RollingTime.new TAU).put t0 c0)
        t0 c0 (by rw [put_TAU]; rfl) h1 hchain
      rw [h2, List.getLast_eq_getLastD]

/-- C7 witness: `windowDuration = 1`, `Put(0, 5); Put(2, 7)` (gap `2 > 1`)
leaves exactly the observation `(2, 7)`. -/
theorem C7_witness :
    (0 : ℚ) < 1 ∧ ([((0 : ℚ), (5 : ℚ)), (2, 7)] : List (ℚ × ℚ)) ≠ [] ∧
    List.Chain' (fun a b : ℚ × ℚ => a.1 + 1 < b.1) [((0 : ℚ), (5 : ℚ)), (2, 7)] ∧
    (applyPuts (RollingTime.new 1) [((0 : ℚ), (5 : ℚ)), (2, 7)]).observations =
      [Obs.mk 2 7] :=
  ⟨by norm_num, by simp, by simp [List.chain'_cons],
    C7_gap_collapses 1 [(0, 5), (2, 7)] (by norm_num) (by simp)
      (by simp [List.chain'_cons])⟩

/-- C8: for every window with positive `windowDuration`, the buffer is
empty at construction and non-empty after any non-empty non-decreasing
sequence of `Put` calls (each `Put` retains at least the observation it
just inserted). -/
theorem C8_nonempty (TAU : ℚ) (hTAU : 0 < TAU) :
    (RollingTime.new TAU).observations = [] ∧
    ∀ ps : List (ℚ × ℚ), nonDecreasing ps → ps ≠ [] →
      (applyPuts (RollingTime.new TAU) ps).observations ≠ [] := by
  refine ⟨rfl, ?_⟩
  intro ps _ hne
  exact applyPuts_obs_ne_nil _ ps hTAU hne

/-- C8 witness: `windowDuration = 1` with the single `Put(0, 0)`. -/
theorem C8_witness :
    (0 : ℚ) < 1 ∧ nonDecreasing [((0 : ℚ), (0 : ℚ))] ∧
    (RollingTime.new 1).observations = [] ∧
    (applyPuts (RollingTime.new 1) [((0 : ℚ), (0 : ℚ))]).observations ≠ [] :=
  ⟨by norm_num, by simp [nonDecreasing], (C8_nonempty 1 (by norm_num)).1,
    (C8_nonempty 1 (by norm_num)).2 [(0, 0)] (by simp [nonDecreasing]) (by simp)⟩

/-- C9: a line that does not split on tab into exactly two fields, or
with a field that does not convert to a number, leaves the window
exactly unchanged, is reported with the correct 1-based line number
(`pre.length + 1` after the lines `pre`), and processing continues with
the subsequent lines. -/
theorem C9_malformed_line (tau : ℚ) (pre post : List (List Char)) (bad : List Char)
    (hbad : badLine bad) :
    (runBatch tau (pre ++ [bad])).rtw = (runBatch tau pre).rtw ∧
    (∃ e, (runBatch tau (pre ++ [bad])).errors =
        (runBatch tau pre).errors ++ [(pre.length + 1, e)]) ∧
    runBatch tau ((pre ++ [bad]) ++ post) =
      post.foldl processLine (runBatch tau (pre ++ [bad])) := by
  obtain ⟨e, he⟩ := processLine_err (runBatch tau pre) bad hbad
  have hsplit : runBatch tau (pre ++ [bad]) = processLine (runBatch tau pre) bad := by
    rw [runBatch_append]
    rfl
  have hcur := runBatch_curLine tau pre
  refine ⟨?_, ⟨e, ?_⟩, ?_⟩
  · rw [hsplit, he]
  · rw [hsplit, he, hcur]
  · rw [runBatch_append]

/-- C9 witness: the malformed line `"x"` (one tab-separated field) as
first and only input line, with `windowDuration = 1`. -/
theorem C9_witness :
    badLine "x".data ∧
    (runBatch 1 ([] ++ ["x".data])).rtw = (runBatch 1 []).rtw ∧
    (∃ e, (runBatch 1 ([] ++ ["x".data])).errors =
        (runBatch 1 []).errors ++ [(([] : List (List Char)).length + 1, e)]) := by
  have hbad : badLine "x".data := by
    left
    decide
  exact ⟨hbad, (C9_malformed_line 1 [] [] "x".data hbad).1,
    (C9_malformed_line 1 [] [] "x".data hbad).2.1⟩

/-- C10: for a line with exactly one tab, a field that is empty or
whitespace-only converts to `0` (not NaN): `parseObservation` accepts
the line, calls `put` with `0` for that field, and reports no error. -/
theorem C10_whitespace_field (rtw : RollingTime) (line a b : List Char)
    (hsplit : splitTab line = [a, b]) :
    (wsOnly a → ∀ q, jsNumber b = some q →
        parseObservation line rtw = Except.ok (rtw.put 0 q)) ∧
    (wsOnly b → ∀ q, jsNumber a = some q →
        parseObservation line rtw = Except.ok (rtw.put q 0)) := by
  constructor
  · intro hws q hq
    unfold parseObservation
    rw [hsplit, if_neg (by simp)]
    simp only [List.getD_cons_zero, List.getD_cons_succ]
    rw [jsNumber_wsOnly a hws, hq]
  · intro hws q hq
    unfold parseObservation
    rw [hsplit, if_neg (by simp)]
    simp only [List.getD_cons_zero, List.getD_cons_succ]
    rw [hq, jsNumber_wsOnly b hws]

/-- C10 witness: the line `"1<TAB> "` (cost field a single space) is
accepted and puts `(1, 0)` into the window. -/
theorem C10_witness :
    splitTab ('1' :: '\t' :: [' ']) = [['1'], [' ']] ∧ wsOnly [' '] ∧
    jsNumber ['1'] = some 1 ∧
    parseObservation ('1' :: '\t' :: [' ']) (RollingTime.new 1) =
      Except.ok ((RollingTime.new 1).put 1 0) := by
  have hs : splitTab ('1' :: '\t' :: [' ']) = [['1'], [' ']] := by decide
  have hw : wsOnly [' '] := by
    unfold wsOnly
    decide
  have hj : jsNumber ['1'] = some 1 := by
    simp +decide [jsNumber, parseUnsigned, parseExponent, digitsToNat, isJsWhitespace,
      List.dropWhile_cons, List.dropWhile_nil, List.takeWhile_cons, List.takeWhile_nil]
  exact ⟨hs, hw, hj,
    (C10_whitespace_field (RollingTime.new 1) _ ['1'] [' '] hs).2 hw 1 hj⟩
